import Mathlib

/-!
Verification of the realtime streaming client subsystem of the
octag_AIchatbot frontend (SSE client, chat stream controller, job event
router), as a shallow embedding in Lean.

Protocol text is modelled as `List Char`; the wire format, buffering and
line splitting follow `src/aptitude-chatbot-frontend/src/lib/streaming/sseClient.ts`,
the chat store follows the zustand store in the repository
(`useChatStore`), and the job collection follows
`src/aptitude-chatbot-frontend/src/lib/stores/test.ts` together with the
`useETLMonitoring` hook's event listeners.
-/

namespace Sse

/-- Whitespace predicate used by the model of JS `String.prototype.trim`. -/
def isWsChar (c : Char) : Bool :=
  c == ' ' || c == '\t' || c == '\n' || c == '\r'

/-- Model of JS `line.trim()`: drop whitespace from both ends. -/
def trim (l : List Char) : List Char :=
  ((l.dropWhile isWsChar).reverse.dropWhile isWsChar).reverse

/-- Boolean check that `p` is an initial segment of `l`
(model of JS `String.prototype.startsWith`). -/
def hasPre : List Char → List Char → Bool
  | [], _ => true
  | _ :: _, [] => false
  | p :: ps, c :: cs => p == c && hasPre ps cs

/-- Model of JS `buffer.split('\n')`: always returns at least one
segment; the segments contain no newline and joining them with `'\n'`
gives back the input. -/
def splitNl : List Char → List (List Char)
  | [] => [[]]
  | c :: cs =>
    if c = '\n' then
      [] :: splitNl cs
    else
      match splitNl cs with
      | [] => [[c]]
      | l :: ls => (c :: l) :: ls

/-- Last segment of a split (model of `lines.pop()`; the `|| ''` default
in the source is unreachable because `split` never returns an empty
array). -/
def lastOf : List (List Char) → List Char
  | [] => []
  | [x] => x
  | _ :: x :: xs => lastOf (x :: xs)

/-- Prepend `x` to the first segment of a split (used to describe how a
trailing partial line is carried into the segments of the next chunk). -/
def consHead (x : List Char) : List (List Char) → List (List Char)
  | [] => [x]
  | l :: ls => (x ++ l) :: ls

/-- One step of `processStream`'s buffering (sseClient.ts lines 119-127):
append the chunk to the carry-over buffer, split on `'\n'`, keep the last
(possibly incomplete) segment as the new buffer and emit the complete
lines. -/
def feedLines (s : List (List Char) × List Char) (chunk : List Char) :
    List (List Char) × List Char :=
  let buffer := s.2 ++ chunk
  let lines := splitNl buffer
  (s.1 ++ lines.dropLast, lastOf lines)

/-- The complete protocol lines produced by feeding a sequence of raw
chunks through the carry-over buffer (the trailing partial line is held
in the buffer and never emitted, exactly as in the source). -/
def linesOf (chunks : List (List Char)) : List (List Char) :=
  (chunks.foldl feedLines ([], [])).1


/-- Metadata attached to a fragment or message: an opaque string map
(the source treats it as an arbitrary JSON object and never inspects
it). -/
abbrev Meta := List (List Char × List Char)

/-- Discriminant of `StreamingChatResponse.type`. -/
inductive FragType
  | chunk
  | complete
  | error
deriving DecidableEq, Repr

/-- A decoded chat fragment (`StreamingChatResponse`): the structured
payload carried by a `data:` line. -/
structure Frag where
  type : FragType
  content : List Char
  metadata : Option Meta := none
deriving DecidableEq, Repr

/-- Abstraction of `JSON.parse` composed with the `StreamingChatResponse`
shape: a total decoding function returning `none` exactly when the
payload is malformed (when the source's `JSON.parse` throws or yields the
wrong shape). -/
abbrev ParseFn := List Char → Option Frag

/-- Model of JS `parseInt(s, 10)` restricted to the nonnegative integers
that a `retry:` directive carries: skip leading whitespace, read a digit
run; `none` models `NaN`. -/
def parseRetryMs (l : List Char) : Option Nat :=
  let l := l.dropWhile isWsChar
  let digits := l.takeWhile (fun c => c.isDigit)
  if digits.isEmpty then none
  else some (digits.foldl (fun n c => n * 10 + (c.toNat - 48)) 0)

/-- The comment sigil `':'` as a one-character initial segment. -/
def colonPre : List Char := [':']

def dataPre : List Char := ("data: ".data)

def eventPre : List Char := ("event: ".data)

def retryPre : List Char := ("retry: ".data)

def doneSentinel : List Char := ("[DONE]".data)

/-- The classification of one complete protocol line performed by
`SSEClient.processLine` (sseClient.ts lines 136-169), with the side
effects abstracted into a decoded event. -/
inductive SSEEvent
  | doneSignal
  | message (f : Frag)
  | malformed (raw : List Char)
  | eventName (name : List Char)
  | retryDir (ms : Nat)
deriving DecidableEq, Repr

/-- Decode one complete line: blank lines and comments yield nothing, a
`data: ` line yields the done signal, a decoded fragment, or a malformed
diagnostic, an `event: ` line records the event name, a `retry: ` line
with an integer payload updates the recommended reconnect delay. -/
def decodeLine (parse : ParseFn) (line : List Char) : Option SSEEvent :=
  let t := trim line
  if t.isEmpty then none
  else if hasPre colonPre t then none
  else if hasPre dataPre t then
    let data := t.drop 6
    if data = doneSentinel then some SSEEvent.doneSignal
    else
      match parse data with
      | some f => some (SSEEvent.message f)
      | none => some (SSEEvent.malformed data)
  else if hasPre eventPre t then some (SSEEvent.eventName (t.drop 7))
  else if hasPre retryPre t then
    (parseRetryMs (t.drop 7)).map SSEEvent.retryDir
  else none

/-- The decoded event sequence produced by the buffer-carrying parser on
a sequence of raw chunks. -/
def sseEvents (parse : ParseFn) (chunks : List (List Char)) : List SSEEvent :=
  (linesOf chunks).filterMap (decodeLine parse)

end Sse

namespace Chat

open Sse

inductive Role
  | user
  | assistant
deriving DecidableEq, Repr

inductive ConnStatus
  | connected
  | disconnected
  | connecting
  | error
deriving DecidableEq, Repr

structure Feedback where
  positive : Bool
  comment : Option (List Char)
  timestamp : Nat
deriving DecidableEq, Repr

/-- A chat `Message`.  Ids are modelled as naturals standing for the
uuids of the source; timestamps as naturals standing for ISO strings. -/
structure Message where
  id : Nat
  content : List Char
  role : Role
  timestamp : Nat
  isStreaming : Bool
  feedback : Option Feedback := none
  metadata : Option Meta := none
deriving DecidableEq, Repr

structure Conversation where
  id : Nat
  messages : List Message
  createdAt : Nat
  updatedAt : Nat
deriving DecidableEq, Repr

/-- The observable state of the zustand chat store (`useChatStore`).
`sseClient` records only whether a client object is currently held. -/
structure ChatState where
  conversations : List Conversation
  currentConversationId : Option Nat
  currentConversation : Option Conversation
  isStreaming : Bool
  isLoading : Bool
  error : Option (List Char)
  streamingMessage : Option Message
  connectionStatus : ConnStatus
  sseClient : Bool
deriving DecidableEq, Repr

/-- `createMessage` helper of the store (uuid and clock passed in). -/
def createMessage (mid now : Nat) (content : List Char) (role : Role)
    (isStreaming : Bool) : Message :=
  { id := mid, content := content, role := role, timestamp := now,
    isStreaming := isStreaming }

/-- `addMessageToConversation`: append the message to the conversation
with the given id (bumping `updatedAt`), and mirror the change into
`currentConversation` when it is the current one. -/
def addMessageToConversation (st : ChatState) (conversationId : Nat)
    (message : Message) (now : Nat) : ChatState :=
  { st with
    conversations := st.conversations.map (fun c =>
      if c.id = conversationId then
        { c with messages := c.messages ++ [message], updatedAt := now }
      else c),
    currentConversation :=
      if st.currentConversationId = some conversationId then
        st.currentConversation.map (fun c =>
          { c with messages := c.messages ++ [message], updatedAt := now })
      else st.currentConversation }

/-- `updateStreamingMessage`: overwrite the streaming placeholder's
content with the accumulator value, in the streaming reference, in the
owning conversation and in the `currentConversation` mirror.  No-op when
no stream is active. -/
def updateStreamingMessage (st : ChatState) (content : List Char) (now : Nat) :
    ChatState :=
  match st.streamingMessage, st.currentConversationId with
  | some sm, some cid =>
    let updatedMessage := { sm with content := content }
    { st with
      streamingMessage := some updatedMessage,
      conversations := st.conversations.map (fun c =>
        if c.id = cid then
          { c with
            messages := c.messages.map (fun m =>
              if m.id = sm.id then updatedMessage else m),
            updatedAt := now }
        else c),
      currentConversation := st.currentConversation.map (fun c =>
        { c with
          messages := c.messages.map (fun m =>
            if m.id = sm.id then updatedMessage else m),
          updatedAt := now }) }
  | _, _ => st

/-- `completeStreamingMessage`: write the final content and metadata into
the placeholder, clear its streaming flag and drop the streaming
reference.  No-op when no stream is active. -/
def completeStreamingMessage (st : ChatState) (finalContent : List Char)
    (metadata : Option Meta) (now : Nat) : ChatState :=
  match st.streamingMessage, st.currentConversationId with
  | some sm, some cid =>
    let completedMessage :=
      { sm with
        content := finalContent,
        isStreaming := false,
        metadata := metadata }
    { st with
      streamingMessage := none,
      conversations := st.conversations.map (fun c =>
        if c.id = cid then
          { c with
            messages := c.messages.map (fun m =>
              if m.id = sm.id then completedMessage else m),
            updatedAt := now }
        else c),
      currentConversation := st.currentConversation.map (fun c =>
        { c with
          messages := c.messages.map (fun m =>
            if m.id = sm.id then completedMessage else m),
          updatedAt := now }) }
  | _, _ => st

/-- The `onError` callback of `streamChatResponse`.  Faithful to the
source's statement order: the first `set` clears `streamingMessage`, and
only afterwards is the state re-read to look for a streaming message to
remove from its conversation — so the removal branch can never fire. -/
def chatOnError (st : ChatState) (err : List Char) (now : Nat) : ChatState :=
  let st1 := { st with
    isStreaming := false,
    streamingMessage := none,
    error := some err,
    connectionStatus := ConnStatus.error,
    sseClient := false }
  match st1.streamingMessage, st1.currentConversationId with
  | some sm, some cid =>
    match st1.conversations.find? (fun c => c.id == cid) with
    | some conversation =>
      let updatedMessages :=
        conversation.messages.filter (fun m => ¬ m.id = sm.id)
      { st1 with
        conversations := st1.conversations.map (fun c =>
          if c.id = cid then
            { c with messages := updatedMessages, updatedAt := now }
          else c),
        currentConversation :=
          if st1.currentConversationId = some conversation.id then
            some { conversation with messages := updatedMessages }
          else st1.currentConversation }
    | none => st1
  | _, _ => st1

/-- The accumulator closure captured by `streamChatResponse`
(`accumulatedContent` and `finalMetadata`). -/
structure StreamAcc where
  accumulatedContent : List Char
  finalMetadata : Option Meta
deriving DecidableEq, Repr

/-- The `onMessage` callback of `streamChatResponse`: a `chunk` extends
the accumulator and rewrites the placeholder, a `complete` records the
metadata and lets a nonempty server-sent final content win over the
accumulator, an `error` fragment throws (modelled by `Except.error`,
thrown before any state mutation). -/
def chatOnMessage (st : ChatState) (a : StreamAcc) (now : Nat) (data : Frag) :
    Except (List Char) (ChatState × StreamAcc) :=
  match data.type with
  | FragType.chunk =>
    let acc := a.accumulatedContent ++ data.content
    Except.ok (updateStreamingMessage st acc now,
      { a with accumulatedContent := acc })
  | FragType.complete =>
    let acc := if data.content = [] then a.accumulatedContent else data.content
    Except.ok (st, { accumulatedContent := acc, finalMetadata := data.metadata })
  | FragType.error => Except.error data.content

/-- The `onComplete` callback of `streamChatResponse`: finalize the
placeholder from the accumulator, then clear the streaming flags and the
client reference. -/
def chatOnComplete (st : ChatState) (a : StreamAcc) (now : Nat) : ChatState :=
  let st1 := completeStreamingMessage st a.accumulatedContent a.finalMetadata now
  { st1 with isStreaming := false, streamingMessage := none, sseClient := false }

/-- The prologue of `streamChatResponse`: disconnect a previous client if
any (which fires `onConnectionChange('disconnected')` into the store),
create the empty placeholder assistant message and, when a conversation
id is known, insert the placeholder into that conversation and remember
it as the streaming message; finally hold the new client.  The fresh
uuid for the placeholder is the parameter `mid`. -/
def streamStart (st : ChatState) (reqConversationId : Option Nat)
    (mid now : Nat) : ChatState :=
  let st := if st.sseClient then
      { st with connectionStatus := ConnStatus.disconnected }
    else st
  let streamingMessage := createMessage mid now [] Role.assistant true
  let conversationId :=
    match reqConversationId with
    | some i => some i
    | none => st.currentConversationId
  match conversationId with
  | some cid =>
    let st := addMessageToConversation st cid streamingMessage now
    { st with streamingMessage := some streamingMessage, sseClient := true }
  | none => { st with sseClient := true }

/-- The state threaded through one stream: the store, the accumulator
closure, the `console.warn` diagnostics recorded by `processLine`, and
the client's mutable `retryDelay` option. -/
structure RunState where
  chat : ChatState
  acc : StreamAcc
  diags : List (List Char)
  retryDelay : Nat
deriving DecidableEq, Repr

/-- The `data:`-branch of `processLine` applied to an already-decoded
fragment: the `onMessage` callback runs inside `processLine`'s
`try/catch`, so an exception thrown by the callback (the `error`-typed
fragment) is caught there and recorded as a parse diagnostic, leaving
the store untouched. -/
def applyFragment (now : Nat) (rs : RunState) (f : Frag) : RunState :=
  match chatOnMessage rs.chat rs.acc now f with
  | Except.ok (st, a) => { rs with chat := st, acc := a }
  | Except.error _ => { rs with diags := rs.diags ++ [f.content] }

def applyFragments (now : Nat) (rs : RunState) (fs : List Frag) : RunState :=
  fs.foldl (applyFragment now) rs

/-- `SSEClient.processLine` wired to the chat store callbacks: trim,
ignore blank lines and comments, dispatch `data: ` payloads ([DONE] to
`onComplete`, decoded fragments to `onMessage`, malformed payloads and
callback exceptions to a warning), log `event: ` names, and let a
numeric `retry: ` directive update the retry delay. -/
def processLine (parse : ParseFn) (now : Nat) (rs : RunState)
    (line : List Char) : RunState :=
  let trimmedLine := trim line
  if trimmedLine.isEmpty then rs
  else if hasPre colonPre trimmedLine then rs
  else if hasPre dataPre trimmedLine then
    let data := trimmedLine.drop 6
    if data = doneSentinel then
      { rs with chat := chatOnComplete rs.chat rs.acc now }
    else
      match parse data with
      | some parsed => applyFragment now rs parsed
      | none => { rs with diags := rs.diags ++ [data] }
  else if hasPre eventPre trimmedLine then rs
  else if hasPre retryPre trimmedLine then
    match parseRetryMs (trimmedLine.drop 7) with
    | some retryMs => { rs with retryDelay := retryMs }
    | none => rs
  else rs

/-- The `done` branch of `SSEClient.processStream` followed by its
`finally` block: fire `onComplete`, then report the disconnect. -/
def endOfStream (now : Nat) (rs : RunState) : RunState :=
  let rs1 := { rs with chat := chatOnComplete rs.chat rs.acc now }
  { rs1 with chat := { rs1.chat with connectionStatus := ConnStatus.disconnected } }

/-- `SSEClient.processStream`: thread the carry-over buffer over the raw
chunks, processing every complete line, then finalize at end-of-stream.
The trailing partial line left in the buffer is never processed. -/
def processStream (parse : ParseFn) (now : Nat) (rs : RunState)
    (chunks : List (List Char)) : RunState :=
  let p := chunks.foldl (fun (s : RunState × List Char) chunk =>
    let buffer := s.2 ++ chunk
    let lines := splitNl buffer
    (lines.dropLast.foldl (processLine parse now) s.1, lastOf lines)) (rs, [])
  endOfStream now p.1

/-- The synchronous part of `sendMessage` (everything before the network
round-trip): reject while streaming, reject blank input, otherwise
append the user message (creating a conversation when none is current)
and flip to the streaming/connecting state, ready for
`streamChatResponse`.  `Option (List Char)` carries a thrown error. -/
def sendMessage (st : ChatState) (messageContent : List Char)
    (now msgId convId : Nat) : ChatState × Option (List Char) :=
  if st.isStreaming then
    (st, some ("Cannot send message while streaming".data))
  else if trim messageContent = [] then
    (st, some ("Message cannot be empty".data))
  else
    let st := { st with isLoading := true, error := none }
    let userMessage := createMessage msgId now messageContent Role.user false
    let st :=
      match st.currentConversation with
      | none =>
        let conversation : Conversation :=
          { id := convId, messages := [userMessage], createdAt := now,
            updatedAt := now }
        { st with
          conversations := st.conversations ++ [conversation],
          currentConversation := some conversation,
          currentConversationId := some convId }
      | some _ =>
        addMessageToConversation st (st.currentConversationId.getD convId)
          userMessage now
    ({ st with
        isLoading := false,
        isStreaming := true,
        connectionStatus := ConnStatus.connecting }, none)

/-- Look up a conversation in the store by id (`find` in the source). -/
def findConv (st : ChatState) (cid : Nat) : Option Conversation :=
  st.conversations.find? (fun c => c.id == cid)

/-- Look up a message inside a conversation of the store. -/
def findMsg (st : ChatState) (cid mid : Nat) : Option Message :=
  (findConv st cid).bind (fun c => c.messages.find? (fun m => m.id == mid))

/-- A chunk fragment carrying the given content. -/
def chunkFrag (content : List Char) : Frag :=
  { type := FragType.chunk, content := content }

/-- The invariant that holds while a chat stream is growing: the store
holds a streaming placeholder with id `mid` whose content equals the
accumulator, the current conversation is `cid`, and the conversation
`cid` contains the placeholder with that same content. -/
def StreamInv (cid mid : Nat) (st : ChatState) (acc : List Char) : Prop :=
  (∃ sm, st.streamingMessage = some sm ∧ sm.id = mid ∧ sm.content = acc
    ∧ sm.isStreaming = true)
  ∧ st.currentConversationId = some cid
  ∧ (∃ m, findMsg st cid mid = some m ∧ m.content = acc
    ∧ m.isStreaming = true)

/-- A user message, used by the concrete evaluation states below. -/
def userMsg : Message := createMessage 1 0 ("hi".data) Role.user false

/-- A streaming placeholder that has already accumulated partial
content. -/
def samplePlaceholder : Message :=
  { id := 2, content := ("partial answer".data), role := Role.assistant,
    timestamp := 0, isStreaming := true }

def sampleConv : Conversation :=
  { id := 10, messages := [userMsg, samplePlaceholder], createdAt := 0,
    updatedAt := 0 }

/-- A store state in the middle of a streaming turn: conversation 10
holds the user message and the partially-filled placeholder. -/
def sampleStreamingState : ChatState :=
  { conversations := [sampleConv],
    currentConversationId := some 10,
    currentConversation := some sampleConv,
    isStreaming := true,
    isLoading := false,
    error := none,
    streamingMessage := some samplePlaceholder,
    connectionStatus := ConnStatus.connected,
    sseClient := true }

/-- The run state corresponding to `sampleStreamingState`. -/
def sampleRun : RunState :=
  { chat := sampleStreamingState,
    acc := {
      accumulatedContent := ("partial answer".data),
      finalMetadata := none },
    diags := [],
    retryDelay := 1000 }

/-- A payload that decodes to an `error`-typed fragment under
`errParse`. -/
def errPayload : List Char := ("errfrag".data)

def errParse : ParseFn := fun l =>
  if l = errPayload then
    some { type := FragType.error, content := ("boom".data) }
  else none

/-- One chat turn whose decoded fragments are all chunks: the
`streamChatResponse` prologue (placeholder insertion, empty accumulator,
no metadata, default `retryDelay` of 1000) followed by the `onMessage`
deliveries of the given chunk contents in order. -/
def chunkRun (st0 : ChatState) (mid now : Nat) (cs : List (List Char)) :
    RunState :=
  applyFragments now
    { chat := streamStart st0 none mid now,
      acc := { accumulatedContent := [], finalMetadata := none },
      diags := [], retryDelay := 1000 }
    (cs.map chunkFrag)

/-- A conversation holding only the user message (no placeholder yet). -/
def baseConv : Conversation :=
  { id := 10, messages := [userMsg], createdAt := 0, updatedAt := 0 }

/-- A store state just before `streamChatResponse` inserts the
placeholder (as `sendMessage` leaves it). -/
def baseState : ChatState :=
  { conversations := [baseConv],
    currentConversationId := some 10,
    currentConversation := some baseConv,
    isStreaming := true,
    isLoading := false,
    error := none,
    streamingMessage := none,
    connectionStatus := ConnStatus.connecting,
    sseClient := false }

end Chat

namespace Client

open Chat (ConnStatus)

/-- The mutable fields of `SSEClient` relevant to connection control:
the retry counter and budget, the configured delay, whether an
`AbortController` is held (`hasAbort` ~ `abortController !== null`) and
whether its signal fired, the `isConnected` flag, the last status
reported through `onConnectionChange`, whether `onError` has fired, and
whether the `!this.abortController` guard threw. -/
structure SSEClientSt where
  retryCount : Nat
  retryAttempts : Nat
  retryDelay : Nat
  isConnected : Bool
  hasAbort : Bool
  aborted : Bool
  status : ConnStatus
  errored : Bool
  guardThrew : Bool
deriving DecidableEq, Repr

/-- `SSEClient.attemptConnection`, driven by a script of attempt
outcomes (`true` = the fetch succeeded and streaming began, `false` = a
transport failure).  Returns the resulting client state and the number
of connection attempts actually made.  On failure the state flips to
`error`; while the retry budget lasts the counter is incremented and,
unless aborted during the backoff sleep, the attempt is repeated; once
the budget is spent `onError` fires (`errored := true`) and the error is
rethrown — no further attempt consumes the script. -/
def attemptConnection (c : SSEClientSt) : List Bool → SSEClientSt × Nat
  | [] => (c, 0)
  | outcome :: rest =>
    if ¬ c.hasAbort then ({ c with guardThrew := true }, 0)
    else
      let c := { c with status := ConnStatus.connecting }
      if outcome then
        ({ c with isConnected := true, status := ConnStatus.connected }, 1)
      else
        let c := { c with isConnected := false, status := ConnStatus.error }
        if c.retryCount < c.retryAttempts then
          let c := { c with retryCount := c.retryCount + 1 }
          if c.hasAbort ∧ ¬ c.aborted then
            let r := attemptConnection c rest
            (r.1, r.2 + 1)
          else (c, 1)
        else
          ({ c with errored := true }, 1)

/-- `SSEClient.connect`: allocate a fresh `AbortController`, reset the
retry counter to zero, then attempt. -/
def connectReset (c : SSEClientSt) : SSEClientSt :=
  { c with hasAbort := true, aborted := false, retryCount := 0 }

def connect (c : SSEClientSt) (script : List Bool) : SSEClientSt × Nat :=
  attemptConnection (connectReset c) script

/-- A freshly constructed client with the default option values of the
source (`retryAttempts: 3, retryDelay: 1000`), after `connect()` has
installed its `AbortController`. -/
def sampleClient : SSEClientSt :=
  { retryCount := 0, retryAttempts := 3, retryDelay := 1000,
    isConnected := false, hasAbort := true, aborted := false,
    status := ConnStatus.disconnected, errored := false,
    guardThrew := false }

end Client

namespace Jobs

open Sse

inductive JobStatus
  | pending
  | running
  | completed
  | failed
  | cancelled
deriving DecidableEq, Repr

/-- A `ProcessingJob` of the test store. -/
structure ProcessingJob where
  jobId : List Char
  status : JobStatus
  progress : Nat
  currentStep : List Char
  errorMessage : Option (List Char) := none
  estimatedCompletion : Option Nat := none
  createdAt : Nat
  updatedAt : Nat
deriving DecidableEq, Repr

/-- `Partial<ProcessingJob>`: every field optional; a `some` field
overwrites on merge, an absent field leaves the job's value. -/
structure JobUpdate where
  status : Option JobStatus := none
  progress : Option Nat := none
  currentStep : Option (List Char) := none
  errorMessage : Option (List Char) := none
  estimatedCompletion : Option Nat := none
  createdAt : Option Nat := none
  updatedAt : Option Nat := none
deriving DecidableEq, Repr

/-- JS object spread `{ ...job, ...updates }` for a partial update. -/
def mergeJob (job : ProcessingJob) (u : JobUpdate) : ProcessingJob :=
  { jobId := job.jobId,
    status := u.status.getD job.status,
    progress := u.progress.getD job.progress,
    currentStep := u.currentStep.getD job.currentStep,
    errorMessage :=
      match u.errorMessage with
      | some e => some e
      | none => job.errorMessage,
    estimatedCompletion :=
      match u.estimatedCompletion with
      | some e => some e
      | none => job.estimatedCompletion,
    createdAt := u.createdAt.getD job.createdAt,
    updatedAt := u.updatedAt.getD job.updatedAt }

/-- `updateJobStatus` of the test store: merge the updates into every
job whose `jobId` matches; jobs with other ids are untouched.  An
unknown id matches nothing, so nothing is inserted. -/
def updateJobStatus (jobs : List ProcessingJob) (jobId : List Char)
    (updates : JobUpdate) : List ProcessingJob :=
  jobs.map (fun job => if job.jobId = jobId then mergeJob job updates else job)

/-- `addJob` of the test store: replace at the first index holding the
same id when one exists, otherwise prepend. -/
def addJob (jobs : List ProcessingJob) (job : ProcessingJob) :
    List ProcessingJob :=
  match jobs.findIdx? (fun j => j.jobId == job.jobId) with
  | some i => jobs.set i job
  | none => job :: jobs

/-- `removeJob` of the test store. -/
def removeJob (jobs : List ProcessingJob) (jobId : List Char) :
    List ProcessingJob :=
  jobs.filter (fun job => ¬ job.jobId = jobId)

/-- The `job_progress` listener of `useETLMonitoring`: decode the event
payload and merge it into the matching job via `updateJobStatus`; a
payload that fails decoding is logged and dropped (`Bool` flags that a
diagnostic was recorded). -/
def etlOnJobProgress (parse : List Char → Option (List Char × JobUpdate))
    (jobs : List ProcessingJob) (raw : List Char) :
    List ProcessingJob × Bool :=
  match parse raw with
  | some (jid, u) => (updateJobStatus jobs jid u, false)
  | none => (jobs, true)

/-- The generic `onmessage` listener of `useETLMonitoring`: decode, then
dispatch `job_update`/`job_created`/`job_removed`; malformed payloads
are logged and dropped. -/
inductive ETLMessage
  | jobUpdate (jid : List Char) (u : JobUpdate)
  | jobCreated (job : ProcessingJob)
  | jobRemoved (jid : List Char)
deriving Repr

def etlOnMessage (parse : List Char → Option ETLMessage)
    (jobs : List ProcessingJob) (raw : List Char) :
    List ProcessingJob × Bool :=
  match parse raw with
  | some (ETLMessage.jobUpdate jid u) => (updateJobStatus jobs jid u, false)
  | some (ETLMessage.jobCreated job) => (addJob jobs job, false)
  | some (ETLMessage.jobRemoved jid) => (removeJob jobs jid, false)
  | none => (jobs, true)

/-- A concrete running job with id `"a"`. -/
def jobA : ProcessingJob :=
  { jobId := ("a".data), status := JobStatus.running, progress := 50,
    currentStep := ("Processing".data), createdAt := 0, updatedAt := 0 }

/-- The partial update carried by `progress{jobId:"b",progress:10}`. -/
def progressTen : JobUpdate := { progress := some 10 }

end Jobs


namespace Sse

theorem splitNl_ne_nil (l : List Char) : splitNl l ≠ [] := by
  cases l with
  | nil => simp [splitNl]
  | cons c cs =>
    simp only [splitNl]
    split
    · simp
    · cases h : splitNl cs <;> simp

theorem lastOf_cons_of_ne_nil (y : List Char) (w : List (List Char)) (h : w ≠ []) :
    lastOf (y :: w) = lastOf w := by
  cases w with
  | nil => exact absurd rfl h
  | cons z t => rfl

theorem dropLast_append_cons {α : Type} (l₁ : List α) (x : α) (l₂ : List α) :
    (l₁ ++ x :: l₂).dropLast = l₁ ++ (x :: l₂).dropLast := by
  induction l₁ with
  | nil => rfl
  | cons y ys ih =>
    cases ys with
    | nil => simp [List.dropLast]
    | cons z zs =>
      have : ((z :: zs) ++ x :: l₂).dropLast = (z :: zs) ++ (x :: l₂).dropLast := ih
      simp only [List.cons_append] at this ⊢
      rw [List.dropLast_cons₂, this]

/-- Splitting a concatenation: the completed segments of `a` come first,
and the trailing segment of `a` is glued onto the first segment of the
split of `b`.  This is the algebra behind the carry-over buffer. -/
theorem splitNl_append (a b : List Char) :
    splitNl (a ++ b) =
      (splitNl a).dropLast ++ consHead (lastOf (splitNl a)) (splitNl b) := by
  induction a with
  | nil =>
    cases hb : splitNl b with
    | nil => exact absurd hb (splitNl_ne_nil b)
    | cons q qs => simp [splitNl, consHead, lastOf, hb]
  | cons c cs ih =>
    by_cases hc : c = '\n'
    · subst hc
      cases ha : splitNl cs with
      | nil => exact absurd ha (splitNl_ne_nil cs)
      | cons p ps =>
        have hleft : splitNl (('\n' :: cs) ++ b) = [] :: splitNl (cs ++ b) := by
          rw [List.cons_append]
          simp [splitNl]
        have hfull : splitNl ('\n' :: cs) = [] :: p :: ps := by
          simp [splitNl, ha]
        rw [hleft, ih, ha, hfull]
        rw [lastOf_cons_of_ne_nil [] (p :: ps) (by simp)]
        simp [List.dropLast]
    · cases ha : splitNl cs with
      | nil => exact absurd ha (splitNl_ne_nil cs)
      | cons p ps =>
        have hleft : splitNl ((c :: cs) ++ b) =
            match splitNl (cs ++ b) with
            | [] => [[c]]
            | l :: ls => (c :: l) :: ls := by
          rw [List.cons_append]
          simp [splitNl, hc]
        have hfull : splitNl (c :: cs) = (c :: p) :: ps := by
          simp [splitNl, hc, ha]
        cases hcb : splitNl b with
        | nil => exact absurd hcb (splitNl_ne_nil b)
        | cons q qs =>
          cases ps with
          | nil =>
            rw [hleft, ih, ha, hfull]
            simp [List.dropLast, lastOf, consHead, hcb]
          | cons p₂ ps₂ =>
            rw [hleft, ih, ha, hfull]
            have h₁ : lastOf ((c :: p) :: p₂ :: ps₂) = lastOf (p₂ :: ps₂) := rfl
            have h₂ : lastOf (p :: p₂ :: ps₂) = lastOf (p₂ :: ps₂) := rfl
            rw [h₁, h₂]
            simp only [List.dropLast_cons₂, List.cons_append]
            rw [hcb]

/-- Every trailing segment of a split is newline-free. -/
theorem newline_not_mem_lastOf_splitNl (l : List Char) :
    '\n' ∉ lastOf (splitNl l) := by
  induction l with
  | nil => simp [splitNl, lastOf]
  | cons c cs ih =>
    by_cases hc : c = '\n'
    · subst hc
      cases ha : splitNl cs with
      | nil => exact absurd ha (splitNl_ne_nil cs)
      | cons p ps =>
        have h : splitNl ('\n' :: cs) = [] :: p :: ps := by
          simp [splitNl, ha]
        rw [h, lastOf_cons_of_ne_nil [] (p :: ps) (by simp)]
        rw [ha] at ih
        exact ih
    · cases ha : splitNl cs with
      | nil => exact absurd ha (splitNl_ne_nil cs)
      | cons p ps =>
        have h : splitNl (c :: cs) = (c :: p) :: ps := by
          simp [splitNl, hc, ha]
        rw [h]
        rw [ha] at ih
        cases ps with
        | nil =>
          simp only [lastOf, List.mem_cons] at ih ⊢
          intro hmem
          rcases hmem with h1 | h2
          · exact hc h1.symm
          · exact ih h2
        | cons p₂ ps₂ =>
          rw [lastOf_cons_of_ne_nil (c :: p) (p₂ :: ps₂) (by simp)]
          rw [lastOf_cons_of_ne_nil p (p₂ :: ps₂) (by simp)] at ih
          exact ih

/-- A newline-free text splits into a single segment. -/
theorem splitNl_of_no_newline (l : List Char) (h : '\n' ∉ l) :
    splitNl l = [l] := by
  induction l with
  | nil => rfl
  | cons c cs ih =>
    simp only [List.mem_cons, not_or] at h
    have hc : ¬ c = '\n' := fun hcc => h.1 hcc.symm
    have hcs := ih h.2
    simp [splitNl, hc, hcs]


theorem splitNl_no_newline_append (x b : List Char) (hx : '\n' ∉ x) :
    splitNl (x ++ b) = consHead x (splitNl b) := by
  rw [splitNl_append, splitNl_of_no_newline x hx]
  simp [lastOf, List.dropLast]

/-- Feeding chunks one at a time is the same as feeding their
concatenation: the state of the buffer machine only depends on the text
seen so far, not on where the chunk boundaries fall. -/
theorem foldl_feedLines_join (cs : List (List Char)) :
    ∀ (c buf : List Char) (ls : List (List Char)),
      (c :: cs).foldl feedLines (ls, buf) =
        (ls ++ (splitNl (buf ++ c ++ cs.flatten)).dropLast,
          lastOf (splitNl (buf ++ c ++ cs.flatten))) := by
  induction cs with
  | nil =>
    intro c buf ls
    simp [feedLines]
  | cons c₂ cs₂ ih =>
    intro c buf ls
    have hstep : (c :: c₂ :: cs₂).foldl feedLines (ls, buf) =
        (c₂ :: cs₂).foldl feedLines (feedLines (ls, buf) c) := rfl
    rw [hstep]
    show (c₂ :: cs₂).foldl feedLines
        (ls ++ (splitNl (buf ++ c)).dropLast, lastOf (splitNl (buf ++ c))) = _
    rw [ih c₂ (lastOf (splitNl (buf ++ c))) (ls ++ (splitNl (buf ++ c)).dropLast)]
    have hx : '\n' ∉ lastOf (splitNl (buf ++ c)) :=
      newline_not_mem_lastOf_splitNl (buf ++ c)
    have hkey : splitNl (buf ++ c ++ (c₂ :: cs₂).flatten) =
        (splitNl (buf ++ c)).dropLast ++
          consHead (lastOf (splitNl (buf ++ c)))
            (splitNl (c₂ ++ cs₂.flatten)) := by
      rw [List.flatten_cons]
      exact splitNl_append (buf ++ c) (c₂ ++ cs₂.flatten)
    have hglue : splitNl (lastOf (splitNl (buf ++ c)) ++ c₂ ++ cs₂.flatten) =
        consHead (lastOf (splitNl (buf ++ c))) (splitNl (c₂ ++ cs₂.flatten)) := by
      rw [List.append_assoc]
      exact splitNl_no_newline_append _ _ hx
    rw [hglue, hkey]
    cases hsp : splitNl (c₂ ++ cs₂.flatten) with
    | nil => exact absurd hsp (splitNl_ne_nil _)
    | cons q qs =>
      have hchd : consHead (lastOf (splitNl (buf ++ c))) (q :: qs) =
          (lastOf (splitNl (buf ++ c)) ++ q) :: qs := rfl
      rw [hchd, dropLast_append_cons, List.append_assoc]
      have hlast : lastOf ((splitNl (buf ++ c)).dropLast ++
          (lastOf (splitNl (buf ++ c)) ++ q) :: qs) =
          lastOf ((lastOf (splitNl (buf ++ c)) ++ q) :: qs) := by
        induction (splitNl (buf ++ c)).dropLast with
        | nil => rfl
        | cons y ys ih₂ =>
          rw [List.cons_append,
            lastOf_cons_of_ne_nil y (ys ++ (lastOf (splitNl (buf ++ c)) ++ q) :: qs)
              (by simp), ih₂]
      rw [hlast]

/-- Chunk-boundary independence of the emitted complete lines. -/
theorem linesOf_join (chunks : List (List Char)) :
    linesOf chunks = linesOf [chunks.flatten] := by
  cases chunks with
  | nil => simp [linesOf, feedLines, splitNl, List.dropLast]
  | cons c cs =>
    rw [linesOf, linesOf, foldl_feedLines_join cs c [] [],
      foldl_feedLines_join [] (c :: cs).flatten [] []]
    simp [List.flatten_cons]

end Sse
namespace Chat

open Sse

theorem find_map_pres {α : Type} (p : α → Bool) (f : α → α)
    (hf : ∀ a, p (f a) = p a) (l : List α) :
    (l.map f).find? p = (l.find? p).map f := by
  induction l with
  | nil => rfl
  | cons a t ih =>
    cases h : p a with
    | true => simp [List.find?, hf, h]
    | false => simp [List.find?, hf, h, ih]

theorem find_append_sing {α : Type} (p : α → Bool) (l : List α) (x : α)
    (hl : ∀ a ∈ l, p a = false) :
    (l ++ [x]).find? p = if p x then some x else none := by
  induction l with
  | nil =>
    cases h : p x with
    | true => simp [List.find?, h]
    | false => simp [List.find?, h]
  | cons a t ih =>
    have ha : p a = false := hl a (List.mem_cons_self a t)
    have ht : ∀ a ∈ t, p a = false := fun b hb => hl b (List.mem_cons_of_mem a hb)
    simp [List.find?, ha, ih ht]

/-- `findMsg` only reads the conversation list. -/
theorem findMsg_eq_of_conversations (st₁ st₂ : ChatState)
    (h : st₁.conversations = st₂.conversations) (cid mid : Nat) :
    findMsg st₁ cid mid = findMsg st₂ cid mid := by
  unfold findMsg findConv
  rw [h]

/-- `find?` on a conversation list commutes with an id-preserving map. -/
theorem find_conv_map (l : List Conversation) (cid : Nat)
    (g : Conversation → Conversation) (hg : ∀ c, (g c).id = c.id) :
    (l.map g).find? (fun c => c.id == cid)
      = (l.find? (fun c => c.id == cid)).map g :=
  find_map_pres _ g (fun c => by rw [hg c]) l

/-- `find?` on a message list commutes with an id-preserving map. -/
theorem find_msg_map (l : List Message) (mid : Nat)
    (g : Message → Message) (hg : ∀ m, (g m).id = m.id) :
    (l.map g).find? (fun m => m.id == mid)
      = (l.find? (fun m => m.id == mid)).map g :=
  find_map_pres _ g (fun m => by rw [hg m]) l

/-- Applying a chunk through `updateStreamingMessage` preserves the
streaming invariant, with the new accumulator value. -/
theorem updateStreamingMessage_inv (st : ChatState) (cid mid : Nat)
    (acc newContent : List Char) (now : Nat)
    (h : StreamInv cid mid st acc) :
    StreamInv cid mid (updateStreamingMessage st newContent now) newContent := by
  obtain ⟨⟨sm, hsm, hsmid, hsmc, hsms⟩, hcid, m, hm, hmc, hms⟩ := h
  obtain ⟨c₀, hc₀, hmfind⟩ := Option.bind_eq_some.mp hm
  unfold findConv at hc₀
  have hc₀id : c₀.id = cid := by simpa using List.find?_some hc₀
  have hmid : m.id = mid := by simpa using List.find?_some hmfind
  have hupd : updateStreamingMessage st newContent now =
      { st with
        streamingMessage := some { sm with content := newContent },
        conversations := st.conversations.map (fun c =>
          if c.id = cid then
            { c with
              messages := c.messages.map (fun m' =>
                if m'.id = sm.id then { sm with content := newContent } else m'),
              updatedAt := now }
          else c),
        currentConversation := st.currentConversation.map (fun c =>
          { c with
            messages := c.messages.map (fun m' =>
              if m'.id = sm.id then { sm with content := newContent } else m'),
            updatedAt := now }) } := by
    unfold updateStreamingMessage
    rw [hsm, hcid]
  rw [hupd]
  refine ⟨⟨{ sm with content := newContent }, rfl, hsmid, rfl, hsms⟩, hcid, ?_⟩
  refine ⟨{ sm with content := newContent }, ?_, rfl, hsms⟩
  show (((st.conversations.map (fun c =>
        if c.id = cid then
          { c with
            messages := c.messages.map (fun m' =>
              if m'.id = sm.id then { sm with content := newContent } else m'),
            updatedAt := now }
        else c)).find? (fun c => c.id == cid)).bind
      (fun c => c.messages.find? (fun m' => m'.id == mid))) = _
  rw [find_conv_map _ cid _ (fun c => by by_cases hc : c.id = cid <;> simp [hc]),
    hc₀]
  simp only [Option.map_some', Option.some_bind]
  rw [if_pos hc₀id]
  show (c₀.messages.map (fun m' =>
      if m'.id = sm.id then { sm with content := newContent } else m')).find?
        (fun m' => m'.id == mid) = _
  rw [find_msg_map _ mid _
    (fun m' => by
      by_cases hmm : m'.id = sm.id
      · rw [if_pos hmm]
        exact hmm.symm
      · rw [if_neg hmm]), hmfind]
  simp only [Option.map_some']
  rw [if_pos (show m.id = sm.id by rw [hmid, hsmid])]

/-- `completeStreamingMessage` finalizes the placeholder in place: under
the streaming invariant the message keeps its id, takes the final
content and metadata, stops streaming, and the streaming reference is
cleared. -/
theorem completeStreamingMessage_finalizes (st : ChatState) (cid mid : Nat)
    (acc : List Char) (meta : Option Meta) (now : Nat)
    (finalContent : List Char) (h : StreamInv cid mid st acc) :
    (∃ m', findMsg (completeStreamingMessage st finalContent meta now) cid mid
        = some m' ∧ m'.content = finalContent ∧ m'.isStreaming = false
        ∧ m'.metadata = meta)
    ∧ (completeStreamingMessage st finalContent meta now).streamingMessage
        = none := by
  obtain ⟨⟨sm, hsm, hsmid, hsmc, hsms⟩, hcid, m, hm, hmc, hms⟩ := h
  obtain ⟨c₀, hc₀, hmfind⟩ := Option.bind_eq_some.mp hm
  unfold findConv at hc₀
  have hc₀id : c₀.id = cid := by simpa using List.find?_some hc₀
  have hmid : m.id = mid := by simpa using List.find?_some hmfind
  have hupd : completeStreamingMessage st finalContent meta now =
      { st with
        streamingMessage := none,
        conversations := st.conversations.map (fun c =>
          if c.id = cid then
            { c with
              messages := c.messages.map (fun m' =>
                if m'.id = sm.id then
                  { sm with
                    content := finalContent,
                    isStreaming := false,
                    metadata := meta }
                else m'),
              updatedAt := now }
          else c),
        currentConversation := st.currentConversation.map (fun c =>
          { c with
            messages := c.messages.map (fun m' =>
              if m'.id = sm.id then
                { sm with
                  content := finalContent,
                  isStreaming := false,
                  metadata := meta }
              else m'),
            updatedAt := now }) } := by
    unfold completeStreamingMessage
    rw [hsm, hcid]
  rw [hupd]
  refine ⟨⟨{ sm with
      content := finalContent, isStreaming := false, metadata := meta },
    ?_, rfl, rfl, rfl⟩, rfl⟩
  show (((st.conversations.map (fun c =>
        if c.id = cid then
          { c with
            messages := c.messages.map (fun m' =>
              if m'.id = sm.id then
                { sm with
                  content := finalContent,
                  isStreaming := false,
                  metadata := meta }
              else m'),
            updatedAt := now }
        else c)).find? (fun c => c.id == cid)).bind
      (fun c => c.messages.find? (fun m' => m'.id == mid))) = _
  rw [find_conv_map _ cid _ (fun c => by by_cases hc : c.id = cid <;> simp [hc]),
    hc₀]
  simp only [Option.map_some', Option.some_bind]
  rw [if_pos hc₀id]
  show (c₀.messages.map (fun m' =>
      if m'.id = sm.id then
        { sm with content := finalContent, isStreaming := false, metadata := meta }
      else m')).find? (fun m' => m'.id == mid) = _
  rw [find_msg_map _ mid _
    (fun m' => by
      by_cases hmm : m'.id = sm.id
      · rw [if_pos hmm]
        exact hmm.symm
      · rw [if_neg hmm]), hmfind]
  simp only [Option.map_some']
  rw [if_pos (show m.id = sm.id by rw [hmid, hsmid])]

/-- Inserting the placeholder as `streamChatResponse` does establishes
the streaming invariant with an empty accumulator, provided the
placeholder's uuid is fresh for the conversation. -/
theorem streamStart_inv (st : ChatState) (cid mid now : Nat)
    (c0 : Conversation)
    (hcid : st.currentConversationId = some cid)
    (hconv : findConv st cid = some c0)
    (hfresh : ∀ m ∈ c0.messages, ¬ m.id = mid) :
    StreamInv cid mid (streamStart st none mid now) [] := by
  unfold findConv at hconv
  have hc0id : c0.id = cid := by simpa using List.find?_some hconv
  have key : ∀ st' : ChatState,
      st'.conversations = st.conversations →
      st'.currentConversationId = some cid →
      StreamInv cid mid
        { (addMessageToConversation st' cid
            (createMessage mid now [] Role.assistant true) now) with
          streamingMessage :=
            some (createMessage mid now [] Role.assistant true),
          sseClient := true } [] := by
    intro st' hconvs hcid'
    refine ⟨⟨createMessage mid now [] Role.assistant true, rfl, rfl, rfl, rfl⟩,
      ?_, ?_⟩
    · show st'.currentConversationId = some cid
      exact hcid'
    · refine ⟨createMessage mid now [] Role.assistant true, ?_, rfl, rfl⟩
      show (((st'.conversations.map (fun c =>
            if c.id = cid then
              { c with
                messages := c.messages
                  ++ [createMessage mid now [] Role.assistant true],
                updatedAt := now }
            else c)).find? (fun c => c.id == cid)).bind
          (fun c => c.messages.find? (fun m => m.id == mid))) = _
      rw [hconvs,
        find_conv_map _ cid _
          (fun c => by by_cases hc : c.id = cid <;> simp [hc]),
        hconv]
      simp only [Option.map_some', Option.some_bind]
      rw [if_pos hc0id]
      show (c0.messages ++ [createMessage mid now [] Role.assistant true]).find?
          (fun m => m.id == mid) = _
      rw [find_append_sing _ c0.messages _
        (fun a ha => by
          rw [beq_eq_false_iff_ne]
          exact hfresh a ha)]
      simp [createMessage]
  cases hcl : st.sseClient with
  | true =>
    have heq : streamStart st none mid now =
        { (addMessageToConversation
            { st with connectionStatus := ConnStatus.disconnected } cid
            (createMessage mid now [] Role.assistant true) now) with
          streamingMessage :=
            some (createMessage mid now [] Role.assistant true),
          sseClient := true } := by
      unfold streamStart
      simp [hcl, hcid]
    rw [heq]
    exact key { st with connectionStatus := ConnStatus.disconnected } rfl hcid
  | false =>
    have heq : streamStart st none mid now =
        { (addMessageToConversation st cid
            (createMessage mid now [] Role.assistant true) now) with
          streamingMessage :=
            some (createMessage mid now [] Role.assistant true),
          sseClient := true } := by
      unfold streamStart
      simp [hcl, hcid]
    rw [heq]
    exact key st rfl hcid

/-- Folding a sequence of chunk fragments through the `onMessage`
callback: the invariant is maintained, the accumulator grows by exactly
the concatenated chunk contents, and neither the metadata, the
diagnostics, nor the retry delay change. -/
theorem applyFragments_chunks (cid mid now : Nat) (cs : List (List Char)) :
    ∀ rs : RunState,
      StreamInv cid mid rs.chat rs.acc.accumulatedContent →
      StreamInv cid mid (applyFragments now rs (cs.map chunkFrag)).chat
        (applyFragments now rs (cs.map chunkFrag)).acc.accumulatedContent
      ∧ (applyFragments now rs (cs.map chunkFrag)).acc.accumulatedContent
          = rs.acc.accumulatedContent ++ cs.flatten
      ∧ (applyFragments now rs (cs.map chunkFrag)).acc.finalMetadata
          = rs.acc.finalMetadata
      ∧ (applyFragments now rs (cs.map chunkFrag)).diags = rs.diags
      ∧ (applyFragments now rs (cs.map chunkFrag)).retryDelay
          = rs.retryDelay := by
  induction cs with
  | nil =>
    intro rs h
    exact ⟨h, by simp [applyFragments], rfl, rfl, rfl⟩
  | cons d ds ih =>
    intro rs h
    have hstep : applyFragments now rs ((d :: ds).map chunkFrag)
        = applyFragments now (applyFragment now rs (chunkFrag d))
            (ds.map chunkFrag) := rfl
    have h1 : applyFragment now rs (chunkFrag d) =
        { rs with
          chat := updateStreamingMessage rs.chat
            (rs.acc.accumulatedContent ++ d) now,
          acc := { rs.acc with
            accumulatedContent := rs.acc.accumulatedContent ++ d } } := rfl
    have hinv1 : StreamInv cid mid (applyFragment now rs (chunkFrag d)).chat
        (applyFragment now rs (chunkFrag d)).acc.accumulatedContent := by
      rw [h1]
      exact updateStreamingMessage_inv rs.chat cid mid
        rs.acc.accumulatedContent (rs.acc.accumulatedContent ++ d) now h
    obtain ⟨ha, hb, hc, hd, he⟩ := ih (applyFragment now rs (chunkFrag d)) hinv1
    rw [hstep]
    refine ⟨ha, ?_, ?_, ?_, ?_⟩
    · rw [hb, h1]
      simp [List.append_assoc]
    · rw [hc, h1]
    · rw [hd, h1]
    · rw [he, h1]

end Chat

namespace Client

open Chat (ConnStatus)

/-- Unfolding one successful attempt: the client connects and the
counter is untouched. -/
theorem attempt_success_step (c : SSEClientSt) (rest : List Bool)
    (h1 : c.hasAbort = true) :
    attemptConnection c (true :: rest)
      = ({ c with status := ConnStatus.connected, isConnected := true }, 1) := by
  simp [attemptConnection, h1]

/-- Unfolding one failed attempt while retry budget remains: increment
the counter and recurse on the rest of the outcome script. -/
theorem attempt_fail_step (c : SSEClientSt) (rest : List Bool)
    (h1 : c.hasAbort = true) (h2 : c.aborted = false)
    (hlt : c.retryCount < c.retryAttempts) :
    attemptConnection c (false :: rest)
      = ((attemptConnection
            { c with
              status := ConnStatus.error, isConnected := false,
              retryCount := c.retryCount + 1 } rest).1,
          (attemptConnection
            { c with
              status := ConnStatus.error, isConnected := false,
              retryCount := c.retryCount + 1 } rest).2 + 1) := by
  simp [attemptConnection, h1, h2, hlt]

/-- Unfolding one failed attempt with the budget spent: `onError` fires
and no further outcome is consumed. -/
theorem attempt_exhausted_step (c : SSEClientSt) (rest : List Bool)
    (h1 : c.hasAbort = true)
    (hnlt : ¬ c.retryCount < c.retryAttempts) :
    attemptConnection c (false :: rest)
      = ({ c with
            status := ConnStatus.error, isConnected := false,
            errored := true }, 1) := by
  simp [attemptConnection, h1, hnlt]

/-- After `k` failed attempts (within the remaining budget) followed by
a success, the client is connected and the retry counter has grown by
exactly `k` — the success transition does not reset it. -/
theorem attempt_success_counter (k : Nat) :
    ∀ (c : SSEClientSt) (rest : List Bool),
      c.hasAbort = true → c.aborted = false →
      k + c.retryCount ≤ c.retryAttempts →
      (attemptConnection c (List.replicate k false ++ true :: rest)).1.isConnected
          = true
      ∧ (attemptConnection c (List.replicate k false ++ true :: rest)).1.status
          = ConnStatus.connected
      ∧ (attemptConnection c (List.replicate k false ++ true :: rest)).1.retryCount
          = c.retryCount + k := by
  induction k with
  | zero =>
    intro c rest h1 h2 _
    rw [List.replicate, List.nil_append, attempt_success_step c rest h1]
    exact ⟨rfl, rfl, rfl⟩
  | succ k ih =>
    intro c rest h1 h2 hle
    have hlt : c.retryCount < c.retryAttempts := by omega
    have hre : List.replicate (k + 1) false ++ true :: rest
        = false :: (List.replicate k false ++ true :: rest) := by
      simp [List.replicate_succ]
    rw [hre, attempt_fail_step c _ h1 h2 hlt]
    obtain ⟨ha, hb, hc⟩ := ih
      { c with
        status := ConnStatus.error, isConnected := false,
        retryCount := c.retryCount + 1 }
      rest h1 h2
      (by show k + (c.retryCount + 1) ≤ c.retryAttempts; omega)
    refine ⟨ha, hb, ?_⟩
    rw [hc]
    show c.retryCount + 1 + k = c.retryCount + (k + 1)
    omega

/-- With `j` retries left in the budget, `j + 1` consecutive transport
failures make exactly `j + 1` attempts, fire `onError`, and leave the
client in the terminal `error` state; outcomes beyond that are never
consumed (no further automatic attempt). -/
theorem attempt_exhaustion (j : Nat) :
    ∀ (c : SSEClientSt) (extra : List Bool),
      c.hasAbort = true → c.aborted = false →
      c.retryAttempts = c.retryCount + j →
      (attemptConnection c (List.replicate (j + 1) false ++ extra)).2 = j + 1
      ∧ (attemptConnection c (List.replicate (j + 1) false ++ extra)).1.errored
          = true
      ∧ (attemptConnection c (List.replicate (j + 1) false ++ extra)).1.status
          = ConnStatus.error
      ∧ (attemptConnection c
          (List.replicate (j + 1) false ++ extra)).1.isConnected = false := by
  induction j with
  | zero =>
    intro c extra h1 h2 hb
    have hnlt : ¬ c.retryCount < c.retryAttempts := by omega
    have hre : List.replicate (0 + 1) false ++ extra = false :: extra := by
      simp
    rw [hre, attempt_exhausted_step c extra h1 hnlt]
    exact ⟨rfl, rfl, rfl, rfl⟩
  | succ j ih =>
    intro c extra h1 h2 hb
    have hlt : c.retryCount < c.retryAttempts := by omega
    have hre : List.replicate (j + 1 + 1) false ++ extra
        = false :: (List.replicate (j + 1) false ++ extra) := by
      simp [List.replicate_succ]
    rw [hre, attempt_fail_step c _ h1 h2 hlt]
    obtain ⟨ha, hb2, hc, hd⟩ := ih
      { c with
        status := ConnStatus.error, isConnected := false,
        retryCount := c.retryCount + 1 }
      extra h1 h2
      (by show c.retryAttempts = c.retryCount + 1 + j; omega)
    exact ⟨by rw [ha], hb2, hc, hd⟩

end Client
namespace Jobs

/-- Merging never changes a job's id. -/
theorem mergeJob_id (job : ProcessingJob) (u : JobUpdate) :
    (mergeJob job u).jobId = job.jobId := rfl

/-- `updateJobStatus` with an id absent from the collection is a no-op. -/
theorem updateJobStatus_not_mem (jobs : List ProcessingJob)
    (jid : List Char) (u : JobUpdate)
    (h : ∀ j ∈ jobs, ¬ j.jobId = jid) :
    updateJobStatus jobs jid u = jobs := by
  induction jobs with
  | nil => rfl
  | cons j t ih =>
    have hj : ¬ j.jobId = jid := h j (List.mem_cons_self j t)
    have ht : ∀ a ∈ t, ¬ a.jobId = jid :=
      fun a ha => h a (List.mem_cons_of_mem j ha)
    show (if j.jobId = jid then mergeJob j u else j)
        :: updateJobStatus t jid u = j :: t
    rw [if_neg hj, ih ht]

/-- `updateJobStatus` preserves the sequence of ids: it never inserts,
deletes, or re-keys a job. -/
theorem updateJobStatus_ids (jobs : List ProcessingJob)
    (jid : List Char) (u : JobUpdate) :
    (updateJobStatus jobs jid u).map (fun j => j.jobId)
      = jobs.map (fun j => j.jobId) := by
  induction jobs with
  | nil => rfl
  | cons j t ih =>
    show ((if j.jobId = jid then mergeJob j u else j)
        :: updateJobStatus t jid u).map (fun j => j.jobId) = _
    by_cases hj : j.jobId = jid
    · simp only [if_pos hj, List.map_cons, mergeJob_id, ih]
    · simp only [if_neg hj, List.map_cons, ih]

end Jobs
/-- C5: Parsing is invariant under chunk boundaries: for every protocol
text and every way of splitting it into chunks (including splits in the
middle of a line), feeding the chunks through the buffer-carrying parser
emits exactly the same sequence of decoded events as feeding the whole
text as one chunk. -/
theorem C5_chunk_boundary_invariance (parse : Sse.ParseFn)
    (chunks : List (List Char)) :
    Sse.sseEvents parse chunks = Sse.sseEvents parse [chunks.flatten] := by
  unfold Sse.sseEvents
  rw [Sse.linesOf_join]

/-- C3 counterexample: routing `progress{jobId:"b",progress:10}` into a
collection that does not contain id `"b"` leaves the collection
unchanged — in particular it contains no job with id `"b"`, contradicting
the claim that it yields exactly one such job. -/
theorem C3_cex_progress_unknown_id :
    Jobs.updateJobStatus [Jobs.jobA] ("b".data) Jobs.progressTen = [Jobs.jobA]
    ∧ ∀ j ∈ Jobs.updateJobStatus [Jobs.jobA] ("b".data) Jobs.progressTen,
        ¬ j.jobId = ("b".data) := by
  refine ⟨by decide, by decide⟩

/-- C3 (amended): applying a `progress` event whose jobId is not present
in the job collection is a no-op — the collection is unchanged and no
job is inserted; moreover `updateJobStatus` always preserves the
sequence of job ids, so each id appears at most once afterwards iff it
did before. -/
theorem C3_amended_progress_unknown_noop (jobs : List Jobs.ProcessingJob)
    (jid : List Char) (u : Jobs.JobUpdate)
    (h : ∀ j ∈ jobs, ¬ j.jobId = jid) :
    Jobs.updateJobStatus jobs jid u = jobs
    ∧ ∀ (jid₂ : List Char) (u₂ : Jobs.JobUpdate),
        (Jobs.updateJobStatus jobs jid₂ u₂).map (fun j => j.jobId)
          = jobs.map (fun j => j.jobId) :=
  ⟨Jobs.updateJobStatus_not_mem jobs jid u h,
    fun jid₂ u₂ => Jobs.updateJobStatus_ids jobs jid₂ u₂⟩

/-- C3 witness: the amended statement evaluated at the one-job
collection `[jobA]` and the unknown id `"b"`. -/
theorem C3_amended_progress_unknown_noop_witness :
    (∀ j ∈ [Jobs.jobA], ¬ j.jobId = ("b".data))
    ∧ (Jobs.updateJobStatus [Jobs.jobA] ("b".data) Jobs.progressTen = [Jobs.jobA]
      ∧ ∀ (jid₂ : List Char) (u₂ : Jobs.JobUpdate),
          (Jobs.updateJobStatus [Jobs.jobA] jid₂ u₂).map (fun j => j.jobId)
            = [Jobs.jobA].map (fun j => j.jobId)) :=
  ⟨by decide,
    C3_amended_progress_unknown_noop [Jobs.jobA] ("b".data) Jobs.progressTen
      (by decide)⟩

/-- C9: while a stream is active (`isStreaming = true`), `sendMessage`
fails fast with the descriptive error and the store — conversations,
current conversation, streaming message — is returned unchanged; no
second stream is started or queued. -/
theorem C9_second_stream_rejected (st : Chat.ChatState) (mc : List Char)
    (now msgId convId : Nat) (h : st.isStreaming = true) :
    Chat.sendMessage st mc now msgId convId
        = (st, some ("Cannot send message while streaming".data))
    ∧ (Chat.sendMessage st mc now msgId convId).1.conversations
        = st.conversations
    ∧ (Chat.sendMessage st mc now msgId convId).1.currentConversation
        = st.currentConversation
    ∧ (Chat.sendMessage st mc now msgId convId).1.streamingMessage
        = st.streamingMessage := by
  have he : Chat.sendMessage st mc now msgId convId
      = (st, some ("Cannot send message while streaming".data)) := by
    unfold Chat.sendMessage
    rw [if_pos h]
  exact ⟨he, by rw [he], by rw [he], by rw [he]⟩

/-- C9 witness: the rejection evaluated at the concrete mid-stream
state. -/
theorem C9_second_stream_rejected_witness :
    (Chat.sampleStreamingState.isStreaming = true)
    ∧ (Chat.sendMessage Chat.sampleStreamingState ("again".data) 1 7 8
        = (Chat.sampleStreamingState,
            some ("Cannot send message while streaming".data))
      ∧ (Chat.sendMessage Chat.sampleStreamingState ("again".data) 1 7 8).1.conversations
          = Chat.sampleStreamingState.conversations
      ∧ (Chat.sendMessage Chat.sampleStreamingState ("again".data) 1 7 8).1.currentConversation
          = Chat.sampleStreamingState.currentConversation
      ∧ (Chat.sendMessage Chat.sampleStreamingState ("again".data) 1 7 8).1.streamingMessage
          = Chat.sampleStreamingState.streamingMessage) :=
  ⟨rfl, C9_second_stream_rejected Chat.sampleStreamingState ("again".data) 1 7 8 rfl⟩

/-- C2: the claim says an `error` termination removes the placeholder
Message from its conversation — but the source's `onError` callback
first sets `streamingMessage` to null and only then re-reads the state
to look for a message to remove, so the removal branch is dead code.
Evaluated at a concrete failing stream state: after `onError` the
placeholder (with its partial content) is still in the conversation's
message list. -/
theorem C2_cex_error_keeps_placeholder :
    (Chat.chatOnError Chat.sampleStreamingState ("Streaming failed".data) 5).conversations
        = Chat.sampleStreamingState.conversations
    ∧ Chat.findMsg
        (Chat.chatOnError Chat.sampleStreamingState ("Streaming failed".data) 5)
        10 2 = some Chat.samplePlaceholder
    ∧ (Chat.chatOnError Chat.sampleStreamingState ("Streaming failed".data) 5).streamingMessage
        = none
    ∧ (Chat.chatOnError Chat.sampleStreamingState ("Streaming failed".data) 5).error
        = some ("Streaming failed".data) := by
  refine ⟨by decide, by decide, by decide, by decide⟩

/-- C6 counterexample: one transport failure followed by a successful
attempt ends connected with the retry counter at 1, not 0 — the
successful `connected` transition does not reset the counter. -/
theorem C6_cex_counter_not_reset :
    ((Client.attemptConnection Client.sampleClient [false, true]).1.isConnected
        = true)
    ∧ ((Client.attemptConnection Client.sampleClient [false, true]).1.status
        = Chat.ConnStatus.connected)
    ∧ ¬ ((Client.attemptConnection Client.sampleClient [false, true]).1.retryCount
        = 0)
    ∧ ((Client.attemptConnection Client.sampleClient [false, true]).1.retryCount
        = 1) := by
  refine ⟨by decide, by decide, by decide, by decide⟩

/-- C6 (amended): the retry counter is reset to zero only by a manual
`connect()` (which resets before attempting); a successful connection
attempt leaves the counter at the number of failed attempts made in
that cycle. -/
theorem C6_amended_counter_semantics (c : Client.SSEClientSt) (k : Nat)
    (rest : List Bool) (h1 : c.hasAbort = true) (h2 : c.aborted = false)
    (h3 : c.retryCount = 0) (hk : k ≤ c.retryAttempts) :
    (Client.attemptConnection c
        (List.replicate k false ++ true :: rest)).1.isConnected = true
    ∧ (Client.attemptConnection c
        (List.replicate k false ++ true :: rest)).1.retryCount = k
    ∧ ∀ c₂ : Client.SSEClientSt, (Client.connectReset c₂).retryCount = 0 := by
  obtain ⟨ha, hb, hc⟩ :=
    Client.attempt_success_counter k c rest h1 h2 (by omega)
  exact ⟨ha, by rw [hc, h3]; omega, fun c₂ => rfl⟩

/-- C6 witness: the amended statement at the default client, one failure
then success. -/
theorem C6_amended_counter_semantics_witness :
    (Client.sampleClient.hasAbort = true)
    ∧ (Client.sampleClient.aborted = false)
    ∧ (Client.sampleClient.retryCount = 0)
    ∧ (1 ≤ Client.sampleClient.retryAttempts)
    ∧ ((Client.attemptConnection Client.sampleClient
          (List.replicate 1 false ++ true :: [])).1.isConnected = true
      ∧ (Client.attemptConnection Client.sampleClient
          (List.replicate 1 false ++ true :: [])).1.retryCount = 1
      ∧ ∀ c₂ : Client.SSEClientSt, (Client.connectReset c₂).retryCount = 0) :=
  ⟨rfl, rfl, rfl, by decide,
    C6_amended_counter_semantics Client.sampleClient 1 [] rfl rfl rfl (by decide)⟩

/-- C7: once the retry budget is exhausted by consecutive transport
failures, exactly `retryAttempts + 1` attempts have been made and no
further outcome of the script is consumed, however many remain — no
further automatic reconnect ever occurs; the state is terminal
(`error`, `onError` fired) until a manual `connect()`, which resets the
attempt counter to zero before attempting. -/
theorem C7_exhaustion_terminal (c : Client.SSEClientSt)
    (extra script : List Bool)
    (h1 : c.hasAbort = true) (h2 : c.aborted = false)
    (h3 : c.retryCount = 0) :
    (Client.attemptConnection c
        (List.replicate (c.retryAttempts + 1) false ++ extra)).2
        = c.retryAttempts + 1
    ∧ (Client.attemptConnection c
        (List.replicate (c.retryAttempts + 1) false ++ extra)).1.errored = true
    ∧ (Client.attemptConnection c
        (List.replicate (c.retryAttempts + 1) false ++ extra)).1.status
        = Chat.ConnStatus.error
    ∧ (Client.attemptConnection c
        (List.replicate (c.retryAttempts + 1) false ++ extra)).1.isConnected
        = false
    ∧ Client.connect c script
        = Client.attemptConnection (Client.connectReset c) script
    ∧ (Client.connectReset c).retryCount = 0 := by
  obtain ⟨ha, hb, hc, hd⟩ :=
    Client.attempt_exhaustion c.retryAttempts c extra h1 h2 (by omega)
  exact ⟨ha, hb, hc, hd, rfl, rfl⟩

/-- C7 witness: budget 3 exhausted by 4 failures; two further available
outcomes are never attempted. -/
theorem C7_exhaustion_terminal_witness :
    (Client.sampleClient.hasAbort = true)
    ∧ (Client.sampleClient.aborted = false)
    ∧ (Client.sampleClient.retryCount = 0)
    ∧ ((Client.attemptConnection Client.sampleClient
          (List.replicate (Client.sampleClient.retryAttempts + 1) false
            ++ [true, true])).2
        = Client.sampleClient.retryAttempts + 1
      ∧ (Client.attemptConnection Client.sampleClient
          (List.replicate (Client.sampleClient.retryAttempts + 1) false
            ++ [true, true])).1.errored = true
      ∧ (Client.attemptConnection Client.sampleClient
          (List.replicate (Client.sampleClient.retryAttempts + 1) false
            ++ [true, true])).1.status = Chat.ConnStatus.error
      ∧ (Client.attemptConnection Client.sampleClient
          (List.replicate (Client.sampleClient.retryAttempts + 1) false
            ++ [true, true])).1.isConnected = false
      ∧ Client.connect Client.sampleClient [true]
          = Client.attemptConnection
              (Client.connectReset Client.sampleClient) [true]
      ∧ (Client.connectReset Client.sampleClient).retryCount = 0) :=
  ⟨rfl, rfl, rfl,
    C7_exhaustion_terminal Client.sampleClient [true, true] [true] rfl rfl rfl⟩
namespace Sse

/-- A prefix-check against its own prefix always succeeds. -/
theorem hasPre_append (p r : List Char) : hasPre p (p ++ r) = true := by
  induction p with
  | nil => rfl
  | cons c cs ih =>
    show ((c == c) && hasPre cs (cs ++ r)) = true
    rw [ih]
    simp

end Sse

/-- C1: for every sequence of `chunk` fragments delivered on one chat
stream (no `complete` yet), the streaming assistant Message's content
equals the concatenation of all chunk contents in arrival order, and a
further chunk only ever extends the accumulator — never replaces or
reorders it. -/
theorem C1_chunk_accumulation (st0 : Chat.ChatState) (cid mid now : Nat)
    (c0 : Chat.Conversation) (cs : List (List Char))
    (hcid : st0.currentConversationId = some cid)
    (hconv : Chat.findConv st0 cid = some c0)
    (hfresh : ∀ m ∈ c0.messages, ¬ m.id = mid) :
    (Chat.chunkRun st0 mid now cs).acc.accumulatedContent = cs.flatten
    ∧ (∃ m, Chat.findMsg (Chat.chunkRun st0 mid now cs).chat cid mid = some m
        ∧ m.content = cs.flatten ∧ m.isStreaming = true)
    ∧ ∀ d, (Chat.applyFragment now (Chat.chunkRun st0 mid now cs)
        (Chat.chunkFrag d)).acc.accumulatedContent = cs.flatten ++ d := by
  have hinv0 : Chat.StreamInv cid mid (Chat.streamStart st0 none mid now) [] :=
    Chat.streamStart_inv st0 cid mid now c0 hcid hconv hfresh
  obtain ⟨hinv1, hacc, -, -, -⟩ :=
    Chat.applyFragments_chunks cid mid now cs
      { chat := Chat.streamStart st0 none mid now,
        acc := { accumulatedContent := [], finalMetadata := none },
        diags := [], retryDelay := 1000 } hinv0
  have haccf : (Chat.chunkRun st0 mid now cs).acc.accumulatedContent
      = cs.flatten := by
    unfold Chat.chunkRun
    rw [hacc]
    simp
  refine ⟨haccf, ?_, ?_⟩
  · obtain ⟨-, -, m, hm, hmc, hms⟩ := hinv1
    refine ⟨m, hm, ?_, hms⟩
    rw [hmc]
    exact haccf
  · intro d
    have hstep : (Chat.applyFragment now (Chat.chunkRun st0 mid now cs)
        (Chat.chunkFrag d)).acc.accumulatedContent
        = (Chat.chunkRun st0 mid now cs).acc.accumulatedContent ++ d := rfl
    rw [hstep, haccf]

/-- C1 witness: two chunks `"He"`, `"llo"` delivered into a fresh
placeholder produce the message content `"Hello"`. -/
theorem C1_chunk_accumulation_witness :
    (Chat.baseState.currentConversationId = some 10)
    ∧ (Chat.findConv Chat.baseState 10 = some Chat.baseConv)
    ∧ (∀ m ∈ Chat.baseConv.messages, ¬ m.id = 2)
    ∧ ((Chat.chunkRun Chat.baseState 2 0
          [("He".data), ("llo".data)]).acc.accumulatedContent
        = [("He".data), ("llo".data)].flatten
      ∧ (∃ m, Chat.findMsg
            (Chat.chunkRun Chat.baseState 2 0 [("He".data), ("llo".data)]).chat
            10 2 = some m
          ∧ m.content = [("He".data), ("llo".data)].flatten
          ∧ m.isStreaming = true)
      ∧ ∀ d, (Chat.applyFragment 0
          (Chat.chunkRun Chat.baseState 2 0 [("He".data), ("llo".data)])
          (Chat.chunkFrag d)).acc.accumulatedContent
          = [("He".data), ("llo".data)].flatten ++ d) :=
  ⟨rfl, by decide, by decide,
    C1_chunk_accumulation Chat.baseState 10 2 0 Chat.baseConv
      [("He".data), ("llo".data)] rfl (by decide) (by decide)⟩

/-- C10: if the transport stream ends without any `complete` fragment
and without a `[DONE]` sentinel, the `done` branch of `processStream`
fires the completion callback: the placeholder is finalized in place —
it remains in its conversation, its content is the accumulated chunk
concatenation, its streaming flag and the store's `isStreaming` are
cleared. -/
theorem C10_end_of_stream_finalizes (st0 : Chat.ChatState)
    (cid mid now : Nat) (c0 : Chat.Conversation) (cs : List (List Char))
    (hcid : st0.currentConversationId = some cid)
    (hconv : Chat.findConv st0 cid = some c0)
    (hfresh : ∀ m ∈ c0.messages, ¬ m.id = mid) :
    (∃ m, Chat.findMsg
        (Chat.endOfStream now (Chat.chunkRun st0 mid now cs)).chat cid mid
        = some m ∧ m.content = cs.flatten ∧ m.isStreaming = false)
    ∧ (Chat.endOfStream now (Chat.chunkRun st0 mid now cs)).chat.isStreaming
        = false
    ∧ (Chat.endOfStream now
        (Chat.chunkRun st0 mid now cs)).chat.streamingMessage = none := by
  have hinv0 : Chat.StreamInv cid mid (Chat.streamStart st0 none mid now) [] :=
    Chat.streamStart_inv st0 cid mid now c0 hcid hconv hfresh
  obtain ⟨hinv1, hacc, -, -, -⟩ :=
    Chat.applyFragments_chunks cid mid now cs
      { chat := Chat.streamStart st0 none mid now,
        acc := { accumulatedContent := [], finalMetadata := none },
        diags := [], retryDelay := 1000 } hinv0
  have haccf : (Chat.chunkRun st0 mid now cs).acc.accumulatedContent
      = cs.flatten := by
    unfold Chat.chunkRun
    rw [hacc]
    simp
  have hinvR : Chat.StreamInv cid mid (Chat.chunkRun st0 mid now cs).chat
      (Chat.chunkRun st0 mid now cs).acc.accumulatedContent := hinv1
  obtain ⟨⟨m, hm, hmc, hms, hmmeta⟩, hsm⟩ :=
    Chat.completeStreamingMessage_finalizes
      (Chat.chunkRun st0 mid now cs).chat cid mid
      (Chat.chunkRun st0 mid now cs).acc.accumulatedContent
      (Chat.chunkRun st0 mid now cs).acc.finalMetadata now
      (Chat.chunkRun st0 mid now cs).acc.accumulatedContent hinvR
  have hconvs : (Chat.endOfStream now (Chat.chunkRun st0 mid now cs)).chat.conversations
      = (Chat.completeStreamingMessage (Chat.chunkRun st0 mid now cs).chat
          (Chat.chunkRun st0 mid now cs).acc.accumulatedContent
          (Chat.chunkRun st0 mid now cs).acc.finalMetadata now).conversations :=
    rfl
  have hfindeq := Chat.findMsg_eq_of_conversations _ _ hconvs cid mid
  refine ⟨⟨m, ?_, ?_, hms⟩, rfl, rfl⟩
  · rw [hfindeq]
    exact hm
  · rw [hmc]
    exact haccf

/-- C10 witness: the same two chunks, then end-of-stream with no
`complete` and no `[DONE]`: the message `"Hello"` is finalized and kept. -/
theorem C10_end_of_stream_finalizes_witness :
    (Chat.baseState.currentConversationId = some 10)
    ∧ (Chat.findConv Chat.baseState 10 = some Chat.baseConv)
    ∧ (∀ m ∈ Chat.baseConv.messages, ¬ m.id = 2)
    ∧ ((∃ m, Chat.findMsg
          (Chat.endOfStream 0
            (Chat.chunkRun Chat.baseState 2 0 [("He".data), ("llo".data)])).chat
          10 2 = some m
        ∧ m.content = [("He".data), ("llo".data)].flatten
        ∧ m.isStreaming = false)
      ∧ (Chat.endOfStream 0
          (Chat.chunkRun Chat.baseState 2 0
            [("He".data), ("llo".data)])).chat.isStreaming = false
      ∧ (Chat.endOfStream 0
          (Chat.chunkRun Chat.baseState 2 0
            [("He".data), ("llo".data)])).chat.streamingMessage = none) :=
  ⟨rfl, by decide, by decide,
    C10_end_of_stream_finalizes Chat.baseState 10 2 0 Chat.baseConv
      [("He".data), ("llo".data)] rfl (by decide) (by decide)⟩

/-- C4: the claim says an `error`-typed fragment propagates immediately
to the controller's cleanup — but the controller's `onMessage` throw is
caught by `processLine`'s `try/catch` around `JSON.parse`, which merely
logs it: evaluated at a concrete mid-stream state, processing a `data:`
line whose payload decodes to `{type:"error"}` records one diagnostic
and changes nothing else — the placeholder stays, `isStreaming` stays
true, the stream is not stopped (and no reconnect attempt is made,
since nothing ever escapes the line handler). -/
theorem C4_error_fragment_swallowed :
    Chat.processLine Chat.errParse 5 Chat.sampleRun
        (Sse.dataPre ++ Chat.errPayload)
      = { Chat.sampleRun with
          diags := Chat.sampleRun.diags ++ [("boom".data)] }
    ∧ (Chat.processLine Chat.errParse 5 Chat.sampleRun
        (Sse.dataPre ++ Chat.errPayload)).chat = Chat.sampleStreamingState
    ∧ Chat.findMsg (Chat.processLine Chat.errParse 5 Chat.sampleRun
        (Sse.dataPre ++ Chat.errPayload)).chat 10 2
        = some Chat.samplePlaceholder
    ∧ (Chat.processLine Chat.errParse 5 Chat.sampleRun
        (Sse.dataPre ++ Chat.errPayload)).chat.isStreaming = true := by
  refine ⟨by decide, by decide, by decide, by decide⟩

/-- C8: a `data:` line whose payload fails structured decoding is
dropped with a diagnostic and advances no Message state, and the job
listener likewise drops a malformed payload without touching the job
collection; neither ever throws (both handlers are total functions). -/
theorem C8_malformed_payload_inert (parse : Sse.ParseFn)
    (pj : List Char → Option (List Char × Jobs.JobUpdate))
    (now : Nat) (rs : Chat.RunState) (payload : List Char)
    (jobs : List Jobs.ProcessingJob)
    (htrim : Sse.trim (Sse.dataPre ++ payload) = Sse.dataPre ++ payload)
    (hne : ¬ payload = Sse.doneSentinel)
    (hparse : parse payload = none)
    (hpj : pj payload = none) :
    Chat.processLine parse now rs (Sse.dataPre ++ payload)
        = { rs with diags := rs.diags ++ [payload] }
    ∧ (Chat.processLine parse now rs (Sse.dataPre ++ payload)).chat = rs.chat
    ∧ Jobs.etlOnJobProgress pj jobs payload = (jobs, true) := by
  have e₁ : (Sse.dataPre ++ payload).isEmpty = false := rfl
  have e₂ : Sse.hasPre Sse.colonPre (Sse.dataPre ++ payload) = false := rfl
  have e₃ : Sse.hasPre Sse.dataPre (Sse.dataPre ++ payload) = true :=
    Sse.hasPre_append Sse.dataPre payload
  have e₄ : (Sse.dataPre ++ payload).drop 6 = payload := rfl
  have hL : Chat.processLine parse now rs (Sse.dataPre ++ payload)
      = { rs with diags := rs.diags ++ [payload] } := by
    simp only [Chat.processLine]
    rw [htrim]
    rw [if_neg (by rw [e₁]; exact Bool.false_ne_true),
      if_neg (by rw [e₂]; exact Bool.false_ne_true),
      if_pos e₃, e₄, if_neg hne, hparse]
  refine ⟨hL, by rw [hL], ?_⟩
  unfold Jobs.etlOnJobProgress
  rw [hpj]

/-- C8 witness: the literal malformed line `data: not-json` with a
decoder that rejects it, at the concrete mid-stream state. -/
theorem C8_malformed_payload_inert_witness :
    (Sse.trim (Sse.dataPre ++ ("not-json".data))
        = Sse.dataPre ++ ("not-json".data))
    ∧ (¬ ("not-json".data) = Sse.doneSentinel)
    ∧ ((fun _ : List Char => (none : Option Sse.Frag)) ("not-json".data)
        = none)
    ∧ ((fun _ : List Char =>
          (none : Option (List Char × Jobs.JobUpdate))) ("not-json".data)
        = none)
    ∧ (Chat.processLine (fun _ => none) 5 Chat.sampleRun
          (Sse.dataPre ++ ("not-json".data))
        = { Chat.sampleRun with
            diags := Chat.sampleRun.diags ++ [("not-json".data)] }
      ∧ (Chat.processLine (fun _ => none) 5 Chat.sampleRun
          (Sse.dataPre ++ ("not-json".data))).chat = Chat.sampleRun.chat
      ∧ Jobs.etlOnJobProgress (fun _ => none) [Jobs.jobA] ("not-json".data)
          = ([Jobs.jobA], true)) :=
  ⟨by decide, by decide, rfl, rfl,
    C8_malformed_payload_inert (fun _ => none) (fun _ => none) 5
      Chat.sampleRun ("not-json".data) [Jobs.jobA] (by decide) (by decide)
      rfl rfl⟩
